import Mathlib

/-!
Verification of the memo sync core (internal/sync/sync.go and its helpers)
against its natural-language specification.

The Go code is shallowly embedded: the SQLite tables become lists of rows,
SQL statements become list operations with the same semantics (including the
ON CONFLICT upsert clauses, the ON DELETE CASCADE foreign keys and the
INSERT OR IGNORE duplicate handling), fallible Go functions become
Except-valued Lean functions carrying the Go error text, and machine
integers become Int/Nat.  The external vault library (suitesync/vault) is
not part of the sources; where its behaviour decides a property it is
modelled from the specification and marked as such in the doc comment.
-/

namespace Memo

/-! ## UUIDs (github.com/google/uuid, as used via uuid.Parse / uuid.String) -/

/-- A parsed UUID: sixteen bytes, as produced by uuid.Parse. -/
structure UUID where
  bytes : List Nat
deriving DecidableEq, Repr

/-- Hex digit value, accepting 0-9, a-f and A-F as Go xtob does. -/
def hexVal (c : Char) : Option Nat :=
  let n := c.toNat
  if 48 ≤ n ∧ n ≤ 57 then some (n - 48)
  else if 97 ≤ n ∧ n ≤ 102 then some (n - 87)
  else if 65 ≤ n ∧ n ≤ 70 then some (n - 55)
  else none

/-- Two hex digits to one byte (Go xtob). -/
def parseHexPair (a b : Char) : Option Nat :=
  match hexVal a, hexVal b with
  | some x, some y => some (x * 16 + y)
  | _, _ => none

/-- Decode an even-length run of hex digits into bytes. -/
def parseHexList : List Char → Option (List Nat)
  | [] => some []
  | a :: b :: rest =>
    match parseHexPair a b, parseHexList rest with
    | some v, some vs => some (v :: vs)
    | _, _ => none
  | [_] => none

/-- ASCII lowercase, for the case-insensitive urn:uuid: prefix test. -/
def asciiLower (c : Char) : Char :=
  if 65 ≤ c.toNat ∧ c.toNat ≤ 90 then Char.ofNat (c.toNat + 32) else c

/-- Decode the canonical 36-character form
xxxxxxxx-xxxx-xxxx-xxxx-xxxxxxxxxxxx: dashes required at offsets
8, 13, 18 and 23, hex digits elsewhere. -/
def parse36 (cs : List Char) : Option (List Nat) :=
  if cs.length = 36 ∧ cs.get? 8 = some '-' ∧ cs.get? 13 = some '-' ∧
      cs.get? 18 = some '-' ∧ cs.get? 23 = some '-' then
    parseHexList (cs.take 8 ++ (cs.drop 9).take 4 ++ (cs.drop 14).take 4 ++
      (cs.drop 19).take 4 ++ cs.drop 24)
  else none

/-- uuid.Parse: accepts the canonical form, the urn:uuid: prefixed form,
the braced form (whose surrounding characters Go does not actually check),
and the plain 32-hex-digit form; every other length is an error. -/
def uuidParse (s : String) : Option UUID :=
  let cs := s.toList
  match cs.length with
  | 36 => (parse36 cs).map UUID.mk
  | 45 =>
    if (cs.take 9).map asciiLower = "urn:uuid:".toList then
      (parse36 (cs.drop 9)).map UUID.mk
    else none
  | 38 => (parse36 ((cs.drop 1).take 36)).map UUID.mk
  | 32 => (parseHexList cs).map UUID.mk
  | _ => none

/-- Lowercase hex digit for a nibble. -/
def nibbleChar (n : Nat) : Char :=
  if n < 10 then Char.ofNat (48 + n) else Char.ofNat (87 + n)

/-- Two lowercase hex digits for a byte. -/
def byteHex (b : Nat) : List Char :=
  [nibbleChar (b / 16), nibbleChar (b % 16)]

/-- uuid.String: canonical lowercase form with dashes. -/
def uuidString (u : UUID) : String :=
  let hx := (u.bytes.map byteHex).flatten
  ⟨hx.take 8 ++ '-' :: (hx.drop 8).take 4 ++ '-' :: (hx.drop 12).take 4 ++
    '-' :: (hx.drop 16).take 4 ++ '-' :: hx.drop 20⟩

/-! ## JSON values and Go encoding/json decoding into the payload structs -/

/-- A parsed JSON document.  Numbers are modelled as integers: every
payload field the sync code decodes has Go type int64 or string, and the
producers only ever marshal Unix-second integers. -/
inductive Json where
  | null
  | bool (b : Bool)
  | num (n : Int)
  | str (s : String)
  | arr (xs : List Json)
  | obj (fields : List (String × Json))

/-- The raw payload bytes of a change: either bytes that parse as JSON,
bytes that do not, or a nil payload (which json.Unmarshal also rejects
with an unmarshal error). -/
inductive PayloadBytes where
  | absent
  | malformed (raw : String)
  | json (j : Json)

/-- NotePayload of sync.go: title, content, tags, created_at, updated_at. -/
structure NotePayload where
  title : String
  content : String
  tags : List String
  createdAt : Int
  updatedAt : Int
deriving DecidableEq, Repr

/-- The zero value json.Unmarshal starts from. -/
def zeroNotePayload : NotePayload := ⟨"", "", [], 0, 0⟩

/-- AttachmentPayload of sync.go: note_id, filename, mime_type,
base64 data, created_at. -/
structure AttachmentPayload where
  noteId : String
  filename : String
  mimeType : String
  data : String
  createdAt : Int
deriving DecidableEq, Repr

/-- The zero value json.Unmarshal starts from. -/
def zeroAttachmentPayload : AttachmentPayload := ⟨"", "", "", "", 0⟩

/-- Decode a JSON array into a Go []string: strings pass through, null
elements leave the zero value, anything else is an unmarshal error. -/
def decodeStringArray : List Json → Option (List String)
  | [] => some []
  | Json.str s :: rest => (decodeStringArray rest).map (fun ts => s :: ts)
  | Json.null :: rest => (decodeStringArray rest).map (fun ts => "" :: ts)
  | _ => none

/-- One object field applied to a NotePayload, with Go semantics: known
fields require the matching JSON type (null leaves the field untouched),
unknown fields are ignored, a type mismatch is an unmarshal error. -/
def applyNoteField (p : NotePayload) : String × Json → Option NotePayload
  | ("title", Json.str s) => some { p with title := s }
  | ("title", Json.null) => some p
  | ("title", _) => none
  | ("content", Json.str s) => some { p with content := s }
  | ("content", Json.null) => some p
  | ("content", _) => none
  | ("tags", Json.arr xs) => (decodeStringArray xs).map (fun ts => { p with tags := ts })
  | ("tags", Json.null) => some p
  | ("tags", _) => none
  | ("created_at", Json.num n) => some { p with createdAt := n }
  | ("created_at", Json.null) => some p
  | ("created_at", _) => none
  | ("updated_at", Json.num n) => some { p with updatedAt := n }
  | ("updated_at", Json.null) => some p
  | ("updated_at", _) => none
  | (_, _) => some p

/-- Fold the object fields left to right (later duplicates win, as in Go). -/
def foldNoteFields : NotePayload → List (String × Json) → Option NotePayload
  | p, [] => some p
  | p, f :: rest =>
    match applyNoteField p f with
    | some p => foldNoteFields p rest
    | none => none

/-- json.Unmarshal into NotePayload: a JSON object decodes field by field,
a JSON null leaves the zero value, everything else is an error. -/
def decodeNotePayload : PayloadBytes → Except String NotePayload
  | PayloadBytes.json Json.null => Except.ok zeroNotePayload
  | PayloadBytes.json (Json.obj fields) =>
    match foldNoteFields zeroNotePayload fields with
    | some p => Except.ok p
    | none => Except.error "unmarshal note payload"
  | _ => Except.error "unmarshal note payload"

/-- One object field applied to an AttachmentPayload, Go semantics. -/
def applyAttachmentField (p : AttachmentPayload) : String × Json → Option AttachmentPayload
  | ("note_id", Json.str s) => some { p with noteId := s }
  | ("note_id", Json.null) => some p
  | ("note_id", _) => none
  | ("filename", Json.str s) => some { p with filename := s }
  | ("filename", Json.null) => some p
  | ("filename", _) => none
  | ("mime_type", Json.str s) => some { p with mimeType := s }
  | ("mime_type", Json.null) => some p
  | ("mime_type", _) => none
  | ("data", Json.str s) => some { p with data := s }
  | ("data", Json.null) => some p
  | ("data", _) => none
  | ("created_at", Json.num n) => some { p with createdAt := n }
  | ("created_at", Json.null) => some p
  | ("created_at", _) => none
  | (_, _) => some p

/-- Fold the object fields left to right. -/
def foldAttachmentFields : AttachmentPayload → List (String × Json) → Option AttachmentPayload
  | p, [] => some p
  | p, f :: rest =>
    match applyAttachmentField p f with
    | some p => foldAttachmentFields p rest
    | none => none

/-- json.Unmarshal into AttachmentPayload. -/
def decodeAttachmentPayload : PayloadBytes → Except String AttachmentPayload
  | PayloadBytes.json Json.null => Except.ok zeroAttachmentPayload
  | PayloadBytes.json (Json.obj fields) =>
    match foldAttachmentFields zeroAttachmentPayload fields with
    | some p => Except.ok p
    | none => Except.error "unmarshal attachment payload"
  | _ => Except.error "unmarshal attachment payload"

/-! ## base64.StdEncoding.DecodeString -/

/-- Value of one character of the standard base64 alphabet. -/
def b64Val (c : Char) : Option Nat :=
  let n := c.toNat
  if 65 ≤ n ∧ n ≤ 90 then some (n - 65)
  else if 97 ≤ n ∧ n ≤ 122 then some (n - 71)
  else if 48 ≤ n ∧ n ≤ 57 then some (n + 4)
  else if n = 43 then some 62
  else if n = 47 then some 63
  else none

/-- Decode four-character groups; padding with = is allowed only at the
very end, as one of xx== or xxx=.  Input whose length is not a multiple
of four is rejected, as by Go StdEncoding (which requires padding). -/
def b64Groups : List Char → Option (List Nat)
  | [] => some []
  | a :: b :: c :: d :: rest =>
    match b64Val a, b64Val b with
    | some va, some vb =>
      if c = '=' then
        if d = '=' ∧ rest = [] then some [va * 4 + vb / 16] else none
      else
        match b64Val c with
        | some vc =>
          if d = '=' then
            if rest = [] then some [va * 4 + vb / 16, (vb % 16) * 16 + vc / 4]
            else none
          else
            match b64Val d, b64Groups rest with
            | some vd, some bs =>
              some ([va * 4 + vb / 16, (vb % 16) * 16 + vc / 4, (vc % 4) * 64 + vd] ++ bs)
            | _, _ => none
        | none => none
    | _, _ => none
  | _ => none

/-- base64.StdEncoding.DecodeString: carriage returns and newlines are
ignored, everything else must be well-padded standard base64. -/
def b64Decode (s : String) : Option (List Nat) :=
  b64Groups (s.toList.filter (fun c => !(c = '\r' ∨ c = '\n')))

/-! ## The local SQLite database (schema of internal/db/db.go) -/

/-- A row of the notes table. -/
structure NoteRow where
  id : UUID
  title : String
  content : String
  createdAt : Int
  updatedAt : Int
deriving DecidableEq, Repr

/-- A row of the tags table (id INTEGER PRIMARY KEY AUTOINCREMENT,
name TEXT UNIQUE). -/
structure TagRow where
  id : Nat
  name : String
deriving DecidableEq, Repr

/-- A row of the attachments table. -/
structure AttachmentRow where
  id : UUID
  noteId : UUID
  filename : String
  mimeType : String
  data : List Nat
  createdAt : Int
deriving DecidableEq, Repr

/-- The local database: notes, tags (with the autoincrement counter),
the note_tags join table and the attachments table.  Timestamps are the
Unix seconds the sync payloads carry (time.Unix(sec, 0)). -/
structure DB where
  notes : List NoteRow
  tags : List TagRow
  nextTagId : Nat
  noteTags : List (UUID × Nat)
  attachments : List AttachmentRow
deriving DecidableEq, Repr

/-- A fresh database. The tag autoincrement counter starts at 1. -/
def emptyDB : DB := ⟨[], [], 1, [], []⟩

def noteExists (db : DB) (id : UUID) : Bool :=
  db.notes.any (fun r => r.id == id)

def attachmentExists (db : DB) (id : UUID) : Bool :=
  db.attachments.any (fun a => a.id == id)

def lookupNote (db : DB) (id : UUID) : Option NoteRow :=
  db.notes.find? (fun r => r.id == id)

def lookupAttachment (db : DB) (id : UUID) : Option AttachmentRow :=
  db.attachments.find? (fun a => a.id == id)

/-- db.DeleteNote: DELETE FROM notes WHERE id = ?; zero affected rows is
ErrNoteNotFound.  The schema declares note_tags.note_id and
attachments.note_id ON DELETE CASCADE, so a successful delete also
removes the tag associations and attachments of the note. -/
def deleteNoteDB (db : DB) (id : UUID) : Except String DB :=
  if noteExists db id then
    Except.ok { db with
      notes := db.notes.filter (fun r => !(r.id == id)),
      noteTags := db.noteTags.filter (fun q => !(q.1 == id)),
      attachments := db.attachments.filter (fun a => !(a.noteId == id)) }
  else Except.error "note not found"

/-- db.DeleteAttachment: DELETE FROM attachments WHERE id = ?; zero
affected rows is ErrAttachmentNotFound. -/
def deleteAttachmentDB (db : DB) (id : UUID) : Except String DB :=
  if attachmentExists db id then
    Except.ok { db with
      attachments := db.attachments.filter (fun a => !(a.id == id)) }
  else Except.error "attachment not found"

/-- The DO UPDATE SET clause of the note upsert: on the conflicting row,
overwrite title, content and updated_at; leave every other row alone. -/
def noteRowUpdate (id : UUID) (title content : String) (updatedAt : Int)
    (r : NoteRow) : NoteRow :=
  if r.id == id then { r with title := title, content := content, updatedAt := updatedAt }
  else r

/-- The note upsert of applyNoteChange: INSERT ... ON CONFLICT(id) DO
UPDATE SET title, content, updated_at (created_at is kept on conflict). -/
def upsertNoteRows (rows : List NoteRow) (id : UUID) (title content : String)
    (createdAt updatedAt : Int) : List NoteRow :=
  if rows.any (fun r => r.id == id) then
    rows.map (noteRowUpdate id title content updatedAt)
  else rows ++ [⟨id, title, content, createdAt, updatedAt⟩]

def upsertNote (db : DB) (id : UUID) (title content : String)
    (createdAt updatedAt : Int) : DB :=
  { db with notes := upsertNoteRows db.notes id title content createdAt updatedAt }

/-- The DO UPDATE SET clause of the attachment upsert: on the conflicting
row, overwrite filename, mime_type and data; leave every other row alone. -/
def attachmentRowUpdate (id : UUID) (filename mimeType : String)
    (data : List Nat) (a : AttachmentRow) : AttachmentRow :=
  if a.id == id then { a with filename := filename, mimeType := mimeType, data := data }
  else a

/-- The attachment upsert of applyAttachmentChange: INSERT ... ON
CONFLICT(id) DO UPDATE SET filename, mime_type, data (note_id and
created_at are kept on conflict).  The insert arm enforces the
attachments.note_id foreign key (PRAGMA foreign_keys = ON). -/
def upsertAttachment (db : DB) (id noteId : UUID) (filename mimeType : String)
    (data : List Nat) (createdAt : Int) : Except String DB :=
  if attachmentExists db id then
    Except.ok { db with attachments :=
      db.attachments.map (attachmentRowUpdate id filename mimeType data) }
  else if noteExists db noteId then
    Except.ok { db with attachments :=
      db.attachments ++ [⟨id, noteId, filename, mimeType, data, createdAt⟩] }
  else Except.error "FOREIGN KEY constraint failed"

/-! ## Tags (internal/db/tags.go and models.NewTag) -/

/-- Go unicode.IsSpace restricted to the ASCII whitespace the payloads
can carry; used by strings.TrimSpace. -/
def isSpaceChar (c : Char) : Bool :=
  c = ' ' ∨ c = '\t' ∨ c = '\n' ∨ c = '\r'

/-- models.NewTag: strings.ToLower(strings.TrimSpace(name)).  Unicode case
mapping is modelled on the ASCII range. -/
def normTag (s : String) : String :=
  ⟨((s.toList.dropWhile isSpaceChar).reverse.dropWhile isSpaceChar).reverse.map asciiLower⟩

/-- The tags table together with its autoincrement counter. -/
structure TagT where
  table : List TagRow
  next : Nat
deriving DecidableEq, Repr

/-- db.GetOrCreateTag: look the normalized name up; if absent, INSERT it
with the next autoincrement id.  Returns the id of the tag. -/
def getOrCreateTag (st : TagT) (name : String) : Nat × TagT :=
  let nm := normTag name
  match st.table.find? (fun t => t.name == nm) with
  | some t => (t.id, st)
  | none => (st.next, ⟨st.table ++ [⟨st.next, nm⟩], st.next + 1⟩)

/-- INSERT OR IGNORE INTO note_tags (primary key (note_id, tag_id)). -/
def insertNoteTag (pairs : List (UUID × Nat)) (nid : UUID) (tid : Nat) :
    List (UUID × Nat) :=
  if (nid, tid) ∈ pairs then pairs else pairs ++ [(nid, tid)]

/-- db.AddTagToNote: GetOrCreateTag then INSERT OR IGNORE the pair. -/
def addTagToNote (st : TagT) (pairs : List (UUID × Nat)) (nid : UUID)
    (name : String) : TagT × List (UUID × Nat) :=
  let r := getOrCreateTag st name
  (r.2, insertNoteTag pairs nid r.1)

/-- The tag loop of applyNoteChange: AddTagToNote for each payload tag. -/
def addTags (st : TagT) (pairs : List (UUID × Nat)) (nid : UUID) :
    List String → TagT × List (UUID × Nat)
  | [] => (st, pairs)
  | n :: rest =>
    let r := addTagToNote st pairs nid n
    addTags r.1 r.2 nid rest

/-- The tag loop lifted to the whole database. -/
def addTagsDB (db : DB) (nid : UUID) (names : List String) : DB :=
  let r := addTags ⟨db.tags, db.nextTagId⟩ db.noteTags nid names
  { db with tags := r.1.table, nextTagId := r.1.next, noteTags := r.2 }

/-! ## Changes and the appliers (internal/sync/sync.go) -/

/-- vault.Op as used by the appliers. -/
inductive Op where
  | upsert
  | delete
deriving DecidableEq, Repr

/-- The fields of a vault.Change the appliers read.  The change id and
timestamp it also carries are informational only (spec section 3) and are
not read by any code under verification. -/
structure Change where
  entity : String
  entityID : String
  op : Op
  deleted : Bool
  payload : PayloadBytes

def EntityNote : String := "note"

def EntityAttachment : String := "attachment"

/-- c.Op == vault.OpDelete || c.Deleted. -/
def isDeleteChange (c : Change) : Bool :=
  c.op == Op.delete || c.deleted

/-- applyNoteChange: parse the id; route deletes to db.DeleteNote;
otherwise decode the payload, upsert the note, clear its note_tags rows
and re-add the payload tags. -/
def applyNoteChange (db : DB) (c : Change) : Except String DB :=
  match uuidParse c.entityID with
  | none => Except.error "invalid note ID"
  | some noteID =>
    if isDeleteChange c then deleteNoteDB db noteID
    else
      match decodeNotePayload c.payload with
      | Except.error e => Except.error e
      | Except.ok p =>
        let db1 := upsertNote db noteID p.title p.content p.createdAt p.updatedAt
        let db2 := { db1 with noteTags := db1.noteTags.filter (fun q => !(q.1 == noteID)) }
        Except.ok (addTagsDB db2 noteID p.tags)

/-- applyAttachmentChange: parse the id; route deletes to
db.DeleteAttachment; otherwise decode the payload, parse its note_id,
base64-decode its data and upsert the attachment. -/
def applyAttachmentChange (db : DB) (c : Change) : Except String DB :=
  match uuidParse c.entityID with
  | none => Except.error "invalid attachment ID"
  | some attID =>
    if isDeleteChange c then deleteAttachmentDB db attID
    else
      match decodeAttachmentPayload c.payload with
      | Except.error e => Except.error e
      | Except.ok p =>
        match uuidParse p.noteId with
        | none => Except.error "invalid note ID in attachment"
        | some noteID =>
          match b64Decode p.data with
          | none => Except.error "decode attachment data"
          | some data =>
            upsertAttachment db attID noteID p.filename p.mimeType data p.createdAt

/-- applyChange: dispatch on the entity kind; unknown kinds are ignored. -/
def applyChange (db : DB) (c : Change) : Except String DB :=
  if c.entity == EntityNote then applyNoteChange db c
  else if c.entity == EntityAttachment then applyAttachmentChange db c
  else Except.ok db

/-- The database state after an apply attempt: the new state on success,
the unchanged state on error.  In the embedding every error arm of the
appliers is reached before the first mutating statement (the only
mutating statement of the attachment arm is its single INSERT), so an
error leaves the state as it was. -/
def applyState (db : DB) (c : Change) : DB :=
  match applyChange db c with
  | Except.ok db2 => db2
  | Except.error _ => db

/-! ## Sync configuration and entry points (sync.go, config) -/

/-- The sync configuration record consumed by NewSyncer and the Try*
helpers (fields as used throughout internal/sync). -/
structure SyncConfig where
  server : String
  userID : String
  token : String
  derivedKey : String
  deviceID : String
  vaultDB : String
  autoSync : Bool
deriving DecidableEq, Repr

/-- canSync: Server, Token and UserID all present. -/
def canSync (cfg : SyncConfig) : Bool :=
  !(cfg.server == "") && !(cfg.token == "") && !(cfg.userID == "")

/-- Modelled from the spec: vault.ParseSeedPhrase (suitesync/vault, not in
the sources).  The derived key is stored as a hex-encoded seed; an absent
or malformed secret must fail fast.  Modelled as: exactly 64 hex digits. -/
def validSeedPhrase (s : String) : Bool :=
  s.length = 64 && s.toList.all (fun c => (hexVal c).isSome)

/-- The constructed syncer; only its configuration is observable to the
properties under verification (keys, store handle and client are opaque
resources of the external vault library). -/
structure Syncer where
  config : SyncConfig
deriving DecidableEq, Repr

/-- Modelled from the spec: the behaviour a transport stub scripts for
vault.Sync (suitesync/vault, not in the sources): the outcome it would
return and the number of network invocations it would perform. -/
structure VaultRun where
  result : Except String Unit
  networkCalls : Nat

/-- NewSyncer: an empty derived key is the distinguishable not-configured
error; a malformed one is an invalid-derived-key error.  The second
component counts transport invocations: NewSyncer performs none (it only
derives keys, opens the local store and constructs a client). -/
def NewSyncer (cfg : SyncConfig) : Except String Syncer × Nat :=
  if cfg.derivedKey == "" then (Except.error "derived key not configured", 0)
  else if !validSeedPhrase cfg.derivedKey then (Except.error "invalid derived key", 0)
  else (Except.ok ⟨cfg⟩, 0)

/-- SyncWithEvents: the canSync precondition is checked before vault.Sync
is invoked; on failure the distinguishable not-configured error is
returned with zero transport invocations, otherwise the scripted
transport behaviour runs. -/
def SyncWithEvents (s : Syncer) (run : VaultRun) : Except String Unit × Nat :=
  if !canSync s.config then (Except.error "sync not configured", 0)
  else (run.result, run.networkCalls)

/-- Sync delegates to SyncWithEvents with nil events. -/
def Sync (s : Syncer) (run : VaultRun) : Except String Unit × Nat :=
  SyncWithEvents s run

/-! ## The outbox (vault.Store) and the queueing helpers -/

/-- An entry of the durable outbox, keyed by the fields the verified
properties observe (the change id and wall-clock timestamp every entry
also carries are informational only, spec section 3). -/
structure OutboxEntry where
  entity : String
  entityID : String
  op : Op
deriving DecidableEq, Repr

/-- Modelled from the spec: the vault.Store outbox (suitesync/vault, not
in the sources).  Spec section 4.2: Enqueue persists a new entry;
Dequeue(limit) returns up to limit un-acknowledged entries in enqueue
order without removing them.  The store is the list of un-acknowledged
entries in enqueue order. -/
abbrev Outbox : Type := List OutboxEntry

/-- Modelled from the spec: Store.EnqueueEncryptedChange appends the
entry at the tail of the queue. -/
def enqueueEntry (ob : Outbox) (e : OutboxEntry) : Outbox :=
  List.append ob [e]

/-- Modelled from the spec: Store.DequeueBatch is a non-destructive peek
of up to limit entries in enqueue order. -/
def dequeueBatch (ob : Outbox) (limit : Nat) : List OutboxEntry :=
  List.take limit ob

/-- PendingCount: the length of a DequeueBatch with limit 1000, returned
together with the store it leaves behind (unchanged: the batch read is a
peek). -/
def PendingCount (ob : Outbox) : Nat × Outbox :=
  ((dequeueBatch ob 1000).length, ob)

/-- A PendingItem as surfaced by PendingChanges; the fields shown to the
caller are carried through from the outbox entry unmodified. -/
structure PendingItem where
  entity : String
deriving DecidableEq, Repr

/-- PendingChanges: map a DequeueBatch with limit 100 to PendingItems,
returned together with the unchanged store. -/
def PendingChanges (ob : Outbox) : List PendingItem × Outbox :=
  ((dequeueBatch ob 100).map (fun e => ⟨e.entity⟩), ob)

/-- Modelled from the spec: one auto-sync-triggered vault.Sync invocation
(suitesync/vault, not in the sources): the outbox it leaves behind and
the outcome it returns.  Spec section 4.6: on push success the pushed
entries are acknowledged (removed from the head of the queue); section 7:
a transport failure never partially commits, so a failing invocation
leaves the queue as it found it. -/
abbrev VaultSyncRun : Type := Outbox → Outbox × Except String Unit

/-- queueChange: enqueue the change; when auto-sync is enabled and the
sync precondition holds, the enqueue is followed by s.Sync, whose outbox
effect and outcome are the vaultSync argument — queueChange returns that
outcome, so a failing auto-sync attempt is an error return of queueChange
itself.  (Failures of the store enqueue and of encryption are resource
errors of the external library and are not modelled.) -/
def queueChange (cfg : SyncConfig) (vaultSync : VaultSyncRun) (ob : Outbox)
    (e : OutboxEntry) : Outbox × Except String Unit :=
  let ob2 := enqueueEntry ob e
  if cfg.autoSync && canSync cfg then vaultSync ob2 else (ob2, Except.ok ())

/-- The outbox entry QueueAttachmentChange enqueues for a delete. -/
def attachmentDeleteEntry (attID : UUID) : OutboxEntry :=
  ⟨EntityAttachment, uuidString attID, Op.delete⟩

/-- The outbox entry QueueNoteChange enqueues for a delete. -/
def noteDeleteEntry (noteID : UUID) : OutboxEntry :=
  ⟨EntityNote, uuidString noteID, Op.delete⟩

/-- The attachment loop of TryQueueNoteDelete: queue one delete per
attachment id, in order, stopping at the first queueChange error exactly
as the Go loop returns early on err. -/
def queueAttachmentDeletes (cfg : SyncConfig) (vaultSync : VaultSyncRun) :
    Outbox → List UUID → Outbox × Except String Unit
  | ob, [] => (ob, Except.ok ())
  | ob, a :: rest =>
    match queueChange cfg vaultSync ob (attachmentDeleteEntry a) with
    | (ob2, Except.ok _) => queueAttachmentDeletes cfg vaultSync ob2 rest
    | (ob2, Except.error msg) => (ob2, Except.error msg)

/-- TryQueueNoteDelete: silently does nothing when sync is not configured
or the syncer cannot be created; otherwise queues one delete per
attachment, returning early with the first error, and only then queues
the note delete. -/
def TryQueueNoteDelete (cfg : SyncConfig) (vaultSync : VaultSyncRun)
    (ob : Outbox) (noteID : UUID) (attachmentIDs : List UUID) :
    Outbox × Except String Unit :=
  if cfg.derivedKey == "" then (ob, Except.ok ())
  else if !validSeedPhrase cfg.derivedKey then (ob, Except.ok ())
  else
    match queueAttachmentDeletes cfg vaultSync ob attachmentIDs with
    | (ob1, Except.ok _) => queueChange cfg vaultSync ob1 (noteDeleteEntry noteID)
    | (ob1, Except.error msg) => (ob1, Except.error msg)

/-- True exactly on successful results. -/
def exceptOk {ε α : Type} : Except ε α → Bool
  | Except.ok _ => true
  | Except.error _ => false

/-! ## General helper lemmas -/

theorem find?_append_left {α : Type} {p : α → Bool} {l1 l2 : List α} {x : α}
    (h : l1.find? p = some x) : (l1 ++ l2).find? p = some x := by
  induction l1 with
  | nil => simp [List.find?] at h
  | cons a t ih =>
    rw [List.cons_append]
    by_cases hp : p a
    · rw [List.find?_cons_of_pos _ hp] at h ⊢; exact h
    · simp only [Bool.not_eq_true] at hp
      rw [List.find?_cons_of_neg _ (by simp [hp])] at h ⊢
      exact ih h

theorem find?_mem {α : Type} {p : α → Bool} {l : List α} {x : α}
    (h : l.find? p = some x) : x ∈ l :=
  List.mem_of_find?_eq_some h

/-- A found element makes any true. -/
theorem any_of_find? {α : Type} {p : α → Bool} {l : List α} {x : α}
    (h : l.find? p = some x) : l.any p = true := by
  have hx := List.find?_some h
  have hm := List.mem_of_find?_eq_some h
  exact List.any_eq_true.mpr ⟨x, hm, hx⟩

/-- find? over a pointwise update that fixes non-matches and keeps
matches matching. -/
theorem find?_map_update {α : Type} {p : α → Bool} {f : α → α}
    (hf : ∀ x, p x = true → p (f x) = true)
    (hkeep : ∀ x, p x = false → f x = x) :
    ∀ {l : List α} {r : α}, l.find? p = some r → (l.map f).find? p = some (f r) := by
  intro l
  induction l with
  | nil => intro r h; simp [List.find?] at h
  | cons a t ih =>
    intro r h
    by_cases hp : p a
    · rw [List.find?_cons_of_pos _ hp] at h
      injection h with h
      subst h
      rw [List.map_cons, List.find?_cons_of_pos _ (hf a hp)]
    · simp only [Bool.not_eq_true] at hp
      rw [List.find?_cons_of_neg _ (by simp [hp])] at h
      have h2 := ih h
      rw [List.map_cons, hkeep a hp, List.find?_cons_of_neg _ (by simp [hp])]
      exact h2

/-- Filtering twice with the same predicate filters once. -/
theorem filter_idem {α : Type} (p : α → Bool) (l : List α) :
    (l.filter p).filter p = l.filter p := by
  induction l with
  | nil => rfl
  | cons a t ih =>
    by_cases hp : p a
    · simp [List.filter, hp, ih]
    · simp only [Bool.not_eq_true] at hp
      simp [List.filter, hp, ih]

/-- A list all of whose elements fail the predicate filters to nil. -/
theorem filter_eq_nil_of_all_neg {α : Type} {p : α → Bool} {l : List α}
    (h : ∀ x ∈ l, p x = false) : l.filter p = [] := by
  induction l with
  | nil => rfl
  | cons a t ih =>
    rw [List.filter_cons_of_neg (by simp [h a (by simp)])]
    exact ih (fun x hx => h x (by simp [hx]))

/-- Left fold of single-element appends is an appended map. -/
theorem foldl_append_singleton_eq_map {α β : Type} (f : α → β) :
    ∀ (l : List α) (acc : List β),
      l.foldl (fun acc a => acc ++ [f a]) acc = acc ++ l.map f := by
  intro l
  induction l with
  | nil => intro acc; simp
  | cons a t ih => intro acc; simp [List.foldl, ih]

/-! ## Claim C7 -/

/-- C7: for every change whose entity_kind is neither "note" nor
"attachment", applyChange returns ok and leaves the local database
completely unchanged. -/
theorem applyChange_unknown_entity_ignored (db : DB) (c : Change)
    (h1 : c.entity ≠ EntityNote) (h2 : c.entity ≠ EntityAttachment) :
    applyChange db c = Except.ok db := by
  simp [applyChange, h1, h2]

/-- Witness for C7 at a concrete unknown entity kind. -/
theorem applyChange_unknown_entity_ignored_witness :
    applyChange emptyDB ⟨"unknown-entity", "", Op.upsert, false, PayloadBytes.absent⟩ =
      Except.ok emptyDB :=
  applyChange_unknown_entity_ignored emptyDB _ (by decide) (by decide)

/-! ## Claim C8 -/

/-- C8: PendingCount is a non-destructive peek: it leaves the outbox
exactly as it was, and calling it again after a call returns the same
value. -/
theorem pendingCount_nondestructive_peek (ob : Outbox) :
    (PendingCount ob).2 = ob ∧
      (PendingCount ((PendingCount ob).2)).1 = (PendingCount ob).1 :=
  ⟨rfl, rfl⟩

/-! ## Claim C10 -/

/-- C10: PendingCount is capped at 1000 and PendingChanges at 100 items,
whatever the size of the outbox, because both read a fixed-limit batch. -/
theorem pending_reads_bounded (ob : Outbox) :
    (PendingCount ob).1 ≤ 1000 ∧ (PendingChanges ob).1.length ≤ 100 := by
  constructor
  · simp [PendingCount, dequeueBatch, List.length_take]
  · simp [PendingChanges, dequeueBatch, List.length_take]

/-! ## Claim C2 -/

/-- C2: every sync entry point fails with a distinguishable
not-configured error before any transport call: NewSyncer when the
derived key is absent, Sync and SyncWithEvents when the relay address,
auth token or account id is absent; the transport invocation count is
zero in every such case, whatever the transport stub would have done. -/
theorem sync_entry_points_not_configured_short_circuit
    (cfg : SyncConfig) (s : Syncer) (run : VaultRun) :
    (cfg.derivedKey = "" →
      NewSyncer cfg = (Except.error "derived key not configured", 0)) ∧
    ((s.config.server = "" ∨ s.config.token = "" ∨ s.config.userID = "") →
      Sync s run = (Except.error "sync not configured", 0) ∧
      SyncWithEvents s run = (Except.error "sync not configured", 0)) := by
  constructor
  · intro h
    simp [NewSyncer, h]
  · intro h
    have hcs : canSync s.config = false := by
      rcases h with h | h | h <;> simp [canSync, h]
    constructor <;> simp [Sync, SyncWithEvents, hcs]

/-- Witness for C2: a configuration with no derived key and a syncer with
no server are both rejected with zero transport invocations, even though
the scripted transport stub would have reported seven calls. -/
theorem sync_entry_points_not_configured_short_circuit_witness :
    NewSyncer ⟨"srv", "user", "tok", "", "dev", "v.db", false⟩ =
      (Except.error "derived key not configured", 0) ∧
    Sync ⟨⟨"", "user", "tok", "k", "dev", "v.db", true⟩⟩ ⟨Except.ok (), 7⟩ =
      (Except.error "sync not configured", 0) :=
  ⟨(sync_entry_points_not_configured_short_circuit
      ⟨"srv", "user", "tok", "", "dev", "v.db", false⟩
      ⟨⟨"", "user", "tok", "k", "dev", "v.db", true⟩⟩ ⟨Except.ok (), 7⟩).1 rfl,
   ((sync_entry_points_not_configured_short_circuit
      ⟨"srv", "user", "tok", "", "dev", "v.db", false⟩
      ⟨⟨"", "user", "tok", "k", "dev", "v.db", true⟩⟩ ⟨Except.ok (), 7⟩).2
      (Or.inl rfl)).1⟩

/-! ## Claim C1 -/

/-- The all-zero UUID. -/
def uuidZero : UUID := ⟨[0, 0, 0, 0, 0, 0, 0, 0, 0, 0, 0, 0, 0, 0, 0, 0]⟩

/-- Its canonical string. -/
def zeroUuidStr : String := "00000000-0000-0000-0000-000000000000"

/-- A delete change for a note id absent from the local database. -/
def cDeleteAbsentNote : Change :=
  ⟨EntityNote, zeroUuidStr, Op.delete, true, PayloadBytes.absent⟩

/-- C1 counterexample: applying a delete change whose entity id does not
exist locally is an error, not ok — db.DeleteNote reports ErrNoteNotFound
when the DELETE affects zero rows, and applyNoteChange returns that error
unmodified. -/
theorem delete_absent_note_is_error_cex :
    applyChange emptyDB cDeleteAbsentNote = Except.error "note not found" := by
  rfl

/-- C1 amended: applying a delete change for an absent entity id returns
the corresponding not-found error (for notes and for attachments); the
local state is unchanged, an error arm being reached before any mutation. -/
theorem apply_delete_absent_entity_errors (db : DB) (c : Change) (nid : UUID)
    (hdel : isDeleteChange c = true) (hid : uuidParse c.entityID = some nid) :
    (c.entity = EntityNote → noteExists db nid = false →
      applyChange db c = Except.error "note not found") ∧
    (c.entity = EntityAttachment → attachmentExists db nid = false →
      applyChange db c = Except.error "attachment not found") := by
  constructor
  · intro he habs
    simp [applyChange, he, applyNoteChange, hid, hdel, deleteNoteDB, habs]
  · intro he habs
    simp [applyChange, he, EntityNote, EntityAttachment, applyAttachmentChange,
      hid, hdel, deleteAttachmentDB, habs]

/-- A delete change for an attachment id absent from the local database. -/
def cDeleteAbsentAttachment : Change :=
  ⟨EntityAttachment, zeroUuidStr, Op.delete, true, PayloadBytes.absent⟩

/-- Witness for the amended C1 at a concrete absent attachment id. -/
theorem apply_delete_absent_entity_errors_witness :
    applyChange emptyDB cDeleteAbsentAttachment = Except.error "attachment not found" :=
  (apply_delete_absent_entity_errors emptyDB cDeleteAbsentAttachment uuidZero
    (by decide) (by decide)).2 rfl rfl

/-! ## Claim C6 -/

/-- A database holding the single all-zero note. -/
def dbOneNote : DB := ⟨[⟨uuidZero, "t", "c", 0, 0⟩], [], 1, [], []⟩

/-- A delete change carrying an undecodable payload. -/
def cDeleteBadPayload : Change :=
  ⟨EntityNote, zeroUuidStr, Op.delete, false, PayloadBytes.malformed "invalid json"⟩

/-- C6 counterexample: a change whose payload is not decodable JSON does
not always produce a hard error — a delete change never decodes its
payload, so applying it to an existing note succeeds. -/
theorem malformed_payload_delete_change_ok_cex :
    exceptOk (decodeNotePayload cDeleteBadPayload.payload) = false ∧
    exceptOk (applyChange dbOneNote cDeleteBadPayload) = true := by
  constructor <;> rfl

/-- True when the attachment payload decode chain of
applyAttachmentChange rejects the payload: undecodable JSON, unparsable
embedded note_id, or invalid base64 data. -/
def attachmentDecodeRejects (pb : PayloadBytes) : Bool :=
  match decodeAttachmentPayload pb with
  | Except.error _ => true
  | Except.ok p => (uuidParse p.noteId).isNone || (b64Decode p.data).isNone

/-- The amended malformedness condition: an unparsable entity id (for
either routed kind, any operation), or — for non-delete changes only —
an undecodable payload, and for attachments an unparsable note_id or
invalid base64 data. -/
def malformedChange (c : Change) : Bool :=
  (c.entity == EntityNote &&
    ((uuidParse c.entityID).isNone ||
      (!isDeleteChange c && !exceptOk (decodeNotePayload c.payload)))) ||
  (c.entity == EntityAttachment &&
    ((uuidParse c.entityID).isNone ||
      (!isDeleteChange c && attachmentDecodeRejects c.payload)))

/-- C6 amended: a change with an unparsable entity id, or a non-delete
change with an undecodable payload (and, for attachments, an unparsable
embedded note_id or invalid base64 data), is applied as a hard error,
never silently skipped. -/
theorem malformed_nondelete_change_errors (db : DB) (c : Change)
    (h : malformedChange c = true) : exceptOk (applyChange db c) = false := by
  by_cases hn : c.entity = EntityNote
  · simp only [malformedChange, hn, EntityNote, EntityAttachment,
      beq_iff_eq, Bool.or_eq_true, Bool.and_eq_true] at h
    simp only [String.reduceEq, decide_True, decide_False, Bool.true_and,
      Bool.false_and, Bool.or_false, false_and, and_true, true_and, or_false,
      false_or] at h
    simp only [applyChange, hn, EntityNote, beq_self_eq_true, if_true, ite_true]
    cases hp : uuidParse c.entityID with
    | none => simp [applyNoteChange, hp, exceptOk]
    | some nid =>
      rcases h with h | ⟨hdel, hdec⟩
      · rw [hp] at h; simp at h
      · simp only [Bool.not_eq_true'] at hdel
        simp only [applyNoteChange, hp, hdel]
        simp only [isDeleteChange] at hdel ⊢
        rw [if_neg (by simp [hdel])]
        cases hd : decodeNotePayload c.payload with
        | error e => simp [exceptOk]
        | ok p => rw [hd] at hdec; simp [exceptOk] at hdec
  · by_cases ha : c.entity = EntityAttachment
    · simp only [malformedChange, ha, EntityNote, EntityAttachment,
        beq_iff_eq, Bool.or_eq_true, Bool.and_eq_true] at h
      simp only [String.reduceEq, decide_True, decide_False, Bool.true_and,
        Bool.false_and, Bool.or_false, false_and, and_true, true_and, or_false,
        false_or] at h
      simp only [applyChange, ha, EntityNote, EntityAttachment]
      rw [if_neg (by simp), if_pos (by simp)]
      cases hp : uuidParse c.entityID with
      | none => simp [applyAttachmentChange, hp, exceptOk]
      | some aid =>
        rcases h with h | ⟨hdel, hdec⟩
        · rw [hp] at h; simp at h
        · simp only [Bool.not_eq_true'] at hdel
          simp only [applyAttachmentChange, hp]
          rw [if_neg (by simp [hdel])]
          cases hd : decodeAttachmentPayload c.payload with
          | error e => simp [exceptOk]
          | ok p =>
            rw [attachmentDecodeRejects, hd] at hdec
            simp only [Bool.or_eq_true, Option.isNone_iff_eq_none] at hdec
            rcases hdec with hq | hb
            · simp [hq, exceptOk]
            · cases hq : uuidParse p.noteId with
              | none => simp [hq, exceptOk]
              | some nid2 => simp [hq, hb, exceptOk]
    · exfalso
      simp only [malformedChange, beq_iff_eq, Bool.or_eq_true, Bool.and_eq_true] at h
      rcases h with ⟨h1, _⟩ | ⟨h1, _⟩
      · exact hn (by simpa [EntityNote] using h1)
      · exact ha (by simpa [EntityAttachment] using h1)

/-- A note change whose entity id is not a parseable UUID. -/
def cBadEntityID : Change :=
  ⟨EntityNote, "not-a-uuid", Op.upsert, false, PayloadBytes.json Json.null⟩

/-- Witness for the amended C6 at a concrete unparsable entity id. -/
theorem malformed_nondelete_change_errors_witness :
    malformedChange cBadEntityID = true ∧
    exceptOk (applyChange emptyDB cBadEntityID) = false :=
  ⟨by decide, malformed_nondelete_change_errors emptyDB cBadEntityID (by decide)⟩

/-! ## Claim C9 -/

/-- C9: an upsert applied onto an existing row overwrites exactly the
fields its ON CONFLICT clause lists: for a note, title, content and
updated_at (id and created_at are kept); for an attachment, filename,
mime_type and data (id, note_id and created_at are kept). -/
theorem upsert_preserves_immutable_fields (db : DB) (c : Change) (nid : UUID)
    (hop : c.op = Op.upsert) (hdel : c.deleted = false)
    (hid : uuidParse c.entityID = some nid) :
    (∀ p r, c.entity = EntityNote → decodeNotePayload c.payload = Except.ok p →
      lookupNote db nid = some r →
      lookupNote (applyState db c) nid =
        some { r with title := p.title, content := p.content, updatedAt := p.updatedAt }) ∧
    (∀ q a dat nid2, c.entity = EntityAttachment →
      decodeAttachmentPayload c.payload = Except.ok q →
      uuidParse q.noteId = some nid2 → b64Decode q.data = some dat →
      lookupAttachment db nid = some a →
      lookupAttachment (applyState db c) nid =
        some { a with filename := q.filename, mimeType := q.mimeType, data := dat }) := by
  have hidc : isDeleteChange c = false := by
    simp [isDeleteChange, hop, hdel]
  constructor
  · intro p r he hp hr
    simp only [lookupNote] at hr
    have hmatch : (r.id == nid) = true := by simpa using List.find?_some hr
    have hup : List.find? (fun x : NoteRow => x.id == nid)
        (List.map (noteRowUpdate nid p.title p.content p.updatedAt) db.notes) =
        some (noteRowUpdate nid p.title p.content p.updatedAt r) :=
      find?_map_update
        (fun x hx => by
          have hx2 : (x.id == nid) = true := hx
          simp only [noteRowUpdate]
          rw [if_pos hx2]; simpa using hx2)
        (fun x hx => by
          have hx2 : (x.id == nid) = false := hx
          simp only [noteRowUpdate]
          exact if_neg (by simp [hx2])) hr
    rw [show noteRowUpdate nid p.title p.content p.updatedAt r =
      { r with title := p.title, content := p.content, updatedAt := p.updatedAt } from by
        simp only [noteRowUpdate]; rw [if_pos hmatch]] at hup
    simp only [applyState, applyChange, he, EntityNote, beq_self_eq_true, if_true,
      ite_true, applyNoteChange, hid, hidc, hp]
    simp only [Bool.false_eq_true, if_false]
    simp only [lookupNote, addTagsDB, upsertNote, upsertNoteRows,
      any_of_find? hr, if_true, ite_true]
    exact hup
  · intro q a dat nid2 he hq hq2 hb ha
    simp only [lookupAttachment] at ha
    have hmatch : (a.id == nid) = true := by simpa using List.find?_some ha
    have hup : List.find? (fun x : AttachmentRow => x.id == nid)
        (List.map (attachmentRowUpdate nid q.filename q.mimeType dat) db.attachments) =
        some (attachmentRowUpdate nid q.filename q.mimeType dat a) :=
      find?_map_update
        (fun x hx => by
          have hx2 : (x.id == nid) = true := hx
          simp only [attachmentRowUpdate]
          rw [if_pos hx2]; simpa using hx2)
        (fun x hx => by
          have hx2 : (x.id == nid) = false := hx
          simp only [attachmentRowUpdate]
          exact if_neg (by simp [hx2])) ha
    rw [show attachmentRowUpdate nid q.filename q.mimeType dat a =
      { a with filename := q.filename, mimeType := q.mimeType, data := dat } from by
        simp only [attachmentRowUpdate]; rw [if_pos hmatch]] at hup
    simp only [applyState, applyChange, he, EntityNote, EntityAttachment]
    rw [if_neg (by simp), if_pos (by simp)]
    simp only [applyAttachmentChange, hid, hidc, hq, hq2, hb]
    simp only [Bool.false_eq_true, if_false]
    simp only [upsertAttachment, attachmentExists, any_of_find? ha, if_true, ite_true]
    simp only [lookupAttachment]
    exact hup

/-- A second UUID used by the concrete witnesses. -/
def uuidOne : UUID := ⟨[0, 0, 0, 0, 0, 0, 0, 0, 0, 0, 0, 0, 0, 0, 0, 1]⟩

/-- A database with one note (created_at 42) and one attachment of that
note (created_at 99). -/
def dbWitness9 : DB :=
  ⟨[⟨uuidZero, "t0", "c0", 42, 43⟩], [], 1, [],
    [⟨uuidOne, uuidZero, "f0", "m0", [1], 99⟩]⟩

/-- A note upsert for the existing note, carrying created_at 7. -/
def cNoteUpsert9 : Change :=
  ⟨EntityNote, zeroUuidStr, Op.upsert, false,
    PayloadBytes.json (Json.obj
      [("title", Json.str "T"), ("content", Json.str "C"),
       ("created_at", Json.num 7), ("updated_at", Json.num 8)])⟩

/-- Witness for C9: upserting onto the existing note overwrites title,
content and updated_at but keeps created_at 42 (not the payload value 7). -/
theorem upsert_preserves_immutable_fields_witness :
    lookupNote (applyState dbWitness9 cNoteUpsert9) uuidZero =
      some ⟨uuidZero, "T", "C", 42, 8⟩ :=
  (upsert_preserves_immutable_fields dbWitness9 cNoteUpsert9 uuidZero
    rfl rfl (by decide)).1 ⟨"T", "C", [], 7, 8⟩ ⟨uuidZero, "t0", "c0", 42, 43⟩
    rfl rfl rfl

/-! ## Lemmas about the tag loop -/

theorem find?_append_none {α : Type} {p : α → Bool} {l1 l2 : List α}
    (h : l1.find? p = none) : (l1 ++ l2).find? p = l2.find? p := by
  induction l1 with
  | nil => simp
  | cons a t ih =>
    rw [List.cons_append]
    by_cases hp : p a
    · rw [List.find?_cons_of_pos _ hp] at h; exact absurd h (by simp)
    · simp only [Bool.not_eq_true] at hp
      rw [List.find?_cons_of_neg _ (by simp [hp])] at h
      rw [List.find?_cons_of_neg _ (by simp [hp])]
      exact ih h

theorem all_neg_of_any_false {α : Type} {p : α → Bool} {l : List α}
    (h : l.any p = false) : ∀ x ∈ l, p x = false := by
  intro x hm
  cases hpx : p x with
  | false => rfl
  | true => exact absurd (List.any_eq_true.mpr ⟨x, hm, hpx⟩) (by simp [h])

theorem map_fix_of_all_fix {α : Type} {f : α → α} :
    ∀ {l : List α}, (∀ x ∈ l, f x = x) → l.map f = l := by
  intro l
  induction l with
  | nil => intro _; rfl
  | cons a t ih =>
    intro h
    rw [List.map_cons, h a (by simp), ih (fun x hx => h x (by simp [hx]))]

theorem getOrCreateTag_table_extends (st : TagT) (name : String) :
    ∃ ext, (getOrCreateTag st name).2.table = st.table ++ ext := by
  cases h : st.table.find? (fun t => t.name == normTag name) with
  | some t => exact ⟨[], by simp [getOrCreateTag, h]⟩
  | none => exact ⟨[⟨st.next, normTag name⟩], by simp [getOrCreateTag, h]⟩

theorem getOrCreateTag_resolves (st : TagT) (name : String) :
    ∃ t : TagRow,
      (getOrCreateTag st name).2.table.find? (fun t2 => t2.name == normTag name) = some t ∧
      t.id = (getOrCreateTag st name).1 := by
  cases h : st.table.find? (fun t => t.name == normTag name) with
  | some t => exact ⟨t, by simp [getOrCreateTag, h], by simp [getOrCreateTag, h]⟩
  | none =>
    refine ⟨⟨st.next, normTag name⟩, ?_, by simp [getOrCreateTag, h]⟩
    simp only [getOrCreateTag, h]
    rw [find?_append_none h]
    simp [List.find?]

theorem addTags_table_extends (names : List String) :
    ∀ (st : TagT) (pairs : List (UUID × Nat)) (nid : UUID),
      ∃ ext, (addTags st pairs nid names).1.table = st.table ++ ext := by
  induction names with
  | nil => intro st pairs nid; exact ⟨[], by simp [addTags]⟩
  | cons n rest ih =>
    intro st pairs nid
    obtain ⟨e1, he1⟩ := getOrCreateTag_table_extends st n
    obtain ⟨e2, he2⟩ :=
      ih (getOrCreateTag st n).2 (insertNoteTag pairs nid (getOrCreateTag st n).1) nid
    refine ⟨e1 ++ e2, ?_⟩
    simp only [addTags, addTagToNote]
    rw [he2, he1, List.append_assoc]

theorem insertNoteTag_extends (pairs : List (UUID × Nat)) (nid : UUID) (tid : Nat) :
    ∃ ext, insertNoteTag pairs nid tid = pairs ++ ext ∧ ∀ x ∈ ext, x.1 = nid := by
  by_cases h : (nid, tid) ∈ pairs
  · exact ⟨[], by simp [insertNoteTag, h], by simp⟩
  · exact ⟨[(nid, tid)], by simp [insertNoteTag, h], by simp⟩

theorem addTags_pairs_extends (names : List String) :
    ∀ (st : TagT) (pairs : List (UUID × Nat)) (nid : UUID),
      ∃ ext, (addTags st pairs nid names).2 = pairs ++ ext ∧ ∀ x ∈ ext, x.1 = nid := by
  induction names with
  | nil => intro st pairs nid; exact ⟨[], by simp [addTags], by simp⟩
  | cons n rest ih =>
    intro st pairs nid
    obtain ⟨e1, he1, hall1⟩ := insertNoteTag_extends pairs nid (getOrCreateTag st n).1
    obtain ⟨e2, he2, hall2⟩ :=
      ih (getOrCreateTag st n).2 (insertNoteTag pairs nid (getOrCreateTag st n).1) nid
    refine ⟨e1 ++ e2, ?_, ?_⟩
    · simp only [addTags, addTagToNote]
      rw [he2, he1, List.append_assoc]
    · intro x hx
      rcases List.mem_append.mp hx with hx | hx
      · exact hall1 x hx
      · exact hall2 x hx

theorem addTags_cons (st : TagT) (pairs : List (UUID × Nat)) (nid : UUID)
    (n : String) (rest : List String) :
    addTags st pairs nid (n :: rest) =
      addTags (getOrCreateTag st n).2
        (insertNoteTag pairs nid (getOrCreateTag st n).1) nid rest := rfl

theorem getOrCreateTag_of_find? {st : TagT} {name : String} {t : TagRow}
    (h : st.table.find? (fun t2 => t2.name == normTag name) = some t) :
    getOrCreateTag st name = (t.id, st) := by
  simp [getOrCreateTag, h]

theorem addTags_idem (names : List String) :
    ∀ (st : TagT) (pairs : List (UUID × Nat)) (nid : UUID),
      addTags (addTags st pairs nid names).1 pairs nid names =
        addTags st pairs nid names := by
  induction names with
  | nil => intro st pairs nid; simp [addTags]
  | cons n rest ih =>
    intro st pairs nid
    obtain ⟨t, hfind, hid⟩ := getOrCreateTag_resolves st n
    obtain ⟨ext, hext⟩ := addTags_table_extends rest (getOrCreateTag st n).2
      (insertNoteTag pairs nid (getOrCreateTag st n).1) nid
    have hfindT1 :
        (addTags (getOrCreateTag st n).2
            (insertNoteTag pairs nid (getOrCreateTag st n).1) nid rest).1.table.find?
          (fun t2 => t2.name == normTag n) = some t := by
      rw [hext]; exact find?_append_left hfind
    have hg := getOrCreateTag_of_find? hfindT1
    rw [hid] at hg
    rw [addTags_cons st, addTags_cons, hg]
    exact ih (getOrCreateTag st n).2 (insertNoteTag pairs nid (getOrCreateTag st n).1) nid

/-! ## Idempotence of the appliers -/

theorem any_map_update {α : Type} {p : α → Bool} {f : α → α}
    (hf : ∀ x, p x = true → p (f x) = true) {l : List α}
    (h : l.any p = true) : (l.map f).any p = true := by
  obtain ⟨x, hm, hx⟩ := List.any_eq_true.mp h
  exact List.any_eq_true.mpr ⟨f x, List.mem_map_of_mem f hm, hf x hx⟩

theorem map_update_idem {α : Type} {f : α → α} (hff : ∀ x, f (f x) = f x) :
    ∀ (l : List α), (l.map f).map f = l.map f := by
  intro l
  induction l with
  | nil => rfl
  | cons a t ih => simp only [List.map_cons]; rw [hff a, ih]

theorem any_filter_not {α : Type} (p : α → Bool) (l : List α) :
    (l.filter (fun x => !p x)).any p = false := by
  cases hq : (l.filter (fun x => !p x)).any p with
  | false => rfl
  | true =>
    obtain ⟨x, hm, hx⟩ := List.any_eq_true.mp hq
    have := (List.mem_filter.mp hm).2
    rw [hx] at this
    exact absurd this (by simp)

theorem noteRowUpdate_matches (id : UUID) (t c : String) (ua : Int) (x : NoteRow)
    (hx : (x.id == id) = true) : ((noteRowUpdate id t c ua x).id == id) = true := by
  simp only [noteRowUpdate]
  rw [if_pos hx]
  simpa using hx

theorem noteRowUpdate_keeps (id : UUID) (t c : String) (ua : Int) (x : NoteRow)
    (hx : (x.id == id) = false) : noteRowUpdate id t c ua x = x := by
  simp only [noteRowUpdate]
  exact if_neg (by simp [hx])

theorem noteRowUpdate_idem (id : UUID) (t c : String) (ua : Int) (x : NoteRow) :
    noteRowUpdate id t c ua (noteRowUpdate id t c ua x) = noteRowUpdate id t c ua x := by
  by_cases hx : (x.id == id) = true
  · have h1 : noteRowUpdate id t c ua x =
        { x with title := t, content := c, updatedAt := ua } := by
      simp only [noteRowUpdate]; rw [if_pos hx]
    rw [h1]
    simp only [noteRowUpdate]
    rw [if_pos (by simpa using hx)]
  · have hx2 : (x.id == id) = false := by simpa using hx
    rw [noteRowUpdate_keeps id t c ua x hx2, noteRowUpdate_keeps id t c ua x hx2]

theorem attachmentRowUpdate_matches (id : UUID) (fn mt : String) (dat : List Nat)
    (x : AttachmentRow) (hx : (x.id == id) = true) :
    ((attachmentRowUpdate id fn mt dat x).id == id) = true := by
  simp only [attachmentRowUpdate]
  rw [if_pos hx]
  simpa using hx

theorem attachmentRowUpdate_keeps (id : UUID) (fn mt : String) (dat : List Nat)
    (x : AttachmentRow) (hx : (x.id == id) = false) :
    attachmentRowUpdate id fn mt dat x = x := by
  simp only [attachmentRowUpdate]
  exact if_neg (by simp [hx])

theorem attachmentRowUpdate_idem (id : UUID) (fn mt : String) (dat : List Nat)
    (x : AttachmentRow) :
    attachmentRowUpdate id fn mt dat (attachmentRowUpdate id fn mt dat x) =
      attachmentRowUpdate id fn mt dat x := by
  by_cases hx : (x.id == id) = true
  · have h1 : attachmentRowUpdate id fn mt dat x =
        { x with filename := fn, mimeType := mt, data := dat } := by
      simp only [attachmentRowUpdate]; rw [if_pos hx]
    rw [h1]
    simp only [attachmentRowUpdate]
    rw [if_pos (by simpa using hx)]
  · have hx2 : (x.id == id) = false := by simpa using hx
    rw [attachmentRowUpdate_keeps id fn mt dat x hx2,
      attachmentRowUpdate_keeps id fn mt dat x hx2]

theorem upsertNoteRows_exists (rows : List NoteRow) (id : UUID) (t c : String)
    (ca ua : Int) :
    (upsertNoteRows rows id t c ca ua).any (fun r => r.id == id) = true := by
  by_cases h : rows.any (fun r => r.id == id) = true
  · rw [upsertNoteRows, if_pos h]
    exact any_map_update (fun x hx => noteRowUpdate_matches id t c ua x hx) h
  · rw [upsertNoteRows, if_neg h, List.any_append]
    simp

theorem upsertNoteRows_idem (rows : List NoteRow) (id : UUID) (t c : String)
    (ca ua : Int) :
    upsertNoteRows (upsertNoteRows rows id t c ca ua) id t c ca ua =
      upsertNoteRows rows id t c ca ua := by
  have hex := upsertNoteRows_exists rows id t c ca ua
  by_cases h : rows.any (fun r => r.id == id) = true
  · have h1 : upsertNoteRows rows id t c ca ua =
        rows.map (noteRowUpdate id t c ua) := by rw [upsertNoteRows, if_pos h]
    rw [h1] at hex ⊢
    rw [upsertNoteRows, if_pos hex]
    exact map_update_idem (noteRowUpdate_idem id t c ua) rows
  · have h1 : upsertNoteRows rows id t c ca ua =
        rows ++ [⟨id, t, c, ca, ua⟩] := by rw [upsertNoteRows, if_neg h]
    rw [h1] at hex ⊢
    rw [upsertNoteRows, if_pos hex, List.map_append]
    have hfalse : rows.any (fun r => r.id == id) = false :=
      Bool.eq_false_iff.mpr h
    have h2 : rows.map (noteRowUpdate id t c ua) = rows :=
      map_fix_of_all_fix (fun x hx =>
        noteRowUpdate_keeps id t c ua x (all_neg_of_any_false hfalse x hx))
    have h3 : noteRowUpdate id t c ua ⟨id, t, c, ca, ua⟩ = ⟨id, t, c, ca, ua⟩ := by
      simp only [noteRowUpdate]
      rw [if_pos (by simp)]
    rw [h2, List.map_singleton, h3]

/-- The non-delete arm of applyNoteChange as a single state transformer:
upsert the note, clear its tag associations, re-add the payload tags. -/
def noteApplyCore (db : DB) (nid : UUID) (p : NotePayload) : DB :=
  let db1 := upsertNote db nid p.title p.content p.createdAt p.updatedAt
  let db2 := { db1 with noteTags := db1.noteTags.filter (fun q => !(q.1 == nid)) }
  addTagsDB db2 nid p.tags

theorem applyChange_note_upsert_eq (db : DB) (c : Change) (nid : UUID)
    (p : NotePayload) (hn : c.entity = EntityNote)
    (hdel : isDeleteChange c = false) (hid : uuidParse c.entityID = some nid)
    (hp : decodeNotePayload c.payload = Except.ok p) :
    applyChange db c = Except.ok (noteApplyCore db nid p) := by
  simp [applyChange, hn, applyNoteChange, hid, hdel, hp, noteApplyCore,
    addTagsDB, upsertNote]

theorem DB_ext (a b : DB) (h1 : a.notes = b.notes) (h2 : a.tags = b.tags)
    (h3 : a.nextTagId = b.nextTagId) (h4 : a.noteTags = b.noteTags)
    (h5 : a.attachments = b.attachments) : a = b := by
  cases a; cases b
  simp only at h1 h2 h3 h4 h5
  subst h1 h2 h3 h4 h5
  rfl

theorem noteApplyCore_idem (db : DB) (nid : UUID) (p : NotePayload) :
    noteApplyCore (noteApplyCore db nid p) nid p = noteApplyCore db nid p := by
  have hP1 : (noteApplyCore db nid p).noteTags.filter (fun q => !(q.1 == nid)) =
      db.noteTags.filter (fun q => !(q.1 == nid)) := by
    obtain ⟨ext, hext, hall⟩ := addTags_pairs_extends p.tags
      ⟨db.tags, db.nextTagId⟩ (db.noteTags.filter (fun q => !(q.1 == nid))) nid
    have hview : (noteApplyCore db nid p).noteTags =
        db.noteTags.filter (fun q => !(q.1 == nid)) ++ ext := hext
    rw [hview, List.filter_append, filter_idem,
      show List.filter (fun q => !(q.1 == nid)) ext = [] from
        filter_eq_nil_of_all_neg (fun x hx => by simp [hall x hx]),
      List.append_nil]
  apply DB_ext
  · show upsertNoteRows (upsertNoteRows db.notes nid p.title p.content p.createdAt p.updatedAt)
      nid p.title p.content p.createdAt p.updatedAt =
      upsertNoteRows db.notes nid p.title p.content p.createdAt p.updatedAt
    exact upsertNoteRows_idem db.notes nid p.title p.content p.createdAt p.updatedAt
  · show (addTags ⟨(noteApplyCore db nid p).tags, (noteApplyCore db nid p).nextTagId⟩
      ((noteApplyCore db nid p).noteTags.filter (fun q => !(q.1 == nid))) nid p.tags).1.table =
      (addTags ⟨db.tags, db.nextTagId⟩
        (db.noteTags.filter (fun q => !(q.1 == nid))) nid p.tags).1.table
    rw [hP1]
    exact congrArg (fun r => r.1.table)
      (addTags_idem p.tags ⟨db.tags, db.nextTagId⟩
        (db.noteTags.filter (fun q => !(q.1 == nid))) nid)
  · show (addTags ⟨(noteApplyCore db nid p).tags, (noteApplyCore db nid p).nextTagId⟩
      ((noteApplyCore db nid p).noteTags.filter (fun q => !(q.1 == nid))) nid p.tags).1.next =
      (addTags ⟨db.tags, db.nextTagId⟩
        (db.noteTags.filter (fun q => !(q.1 == nid))) nid p.tags).1.next
    rw [hP1]
    exact congrArg (fun r => r.1.next)
      (addTags_idem p.tags ⟨db.tags, db.nextTagId⟩
        (db.noteTags.filter (fun q => !(q.1 == nid))) nid)
  · show (addTags ⟨(noteApplyCore db nid p).tags, (noteApplyCore db nid p).nextTagId⟩
      ((noteApplyCore db nid p).noteTags.filter (fun q => !(q.1 == nid))) nid p.tags).2 =
      (addTags ⟨db.tags, db.nextTagId⟩
        (db.noteTags.filter (fun q => !(q.1 == nid))) nid p.tags).2
    rw [hP1]
    exact congrArg (fun r => r.2)
      (addTags_idem p.tags ⟨db.tags, db.nextTagId⟩
        (db.noteTags.filter (fun q => !(q.1 == nid))) nid)
  · rfl

theorem upsertAttachment_idem (db db2 : DB) (aid nid : UUID) (fn mt : String)
    (dat : List Nat) (ca : Int)
    (h : upsertAttachment db aid nid fn mt dat ca = Except.ok db2) :
    upsertAttachment db2 aid nid fn mt dat ca = Except.ok db2 := by
  by_cases hex : attachmentExists db aid = true
  · rw [upsertAttachment, if_pos hex] at h
    obtain rfl := Except.ok.inj h
    have hex2 : attachmentExists
        { db with attachments := db.attachments.map (attachmentRowUpdate aid fn mt dat) }
        aid = true :=
      any_map_update (fun x hx => attachmentRowUpdate_matches aid fn mt dat x hx) hex
    rw [upsertAttachment, if_pos hex2]
    have hmm : (db.attachments.map (attachmentRowUpdate aid fn mt dat)).map
        (attachmentRowUpdate aid fn mt dat) =
        db.attachments.map (attachmentRowUpdate aid fn mt dat) :=
      map_update_idem (attachmentRowUpdate_idem aid fn mt dat) db.attachments
    rw [show ({ db with attachments := db.attachments.map (attachmentRowUpdate aid fn mt dat) } : DB).attachments =
      db.attachments.map (attachmentRowUpdate aid fn mt dat) from rfl, hmm]
  · have hex2 : attachmentExists db aid = false := Bool.eq_false_iff.mpr hex
    by_cases hnote : noteExists db nid = true
    · rw [upsertAttachment, if_neg hex, if_pos hnote] at h
      obtain rfl := Except.ok.inj h
      have hexNew : (db.attachments ++
          [(⟨aid, nid, fn, mt, dat, ca⟩ : AttachmentRow)]).any (fun a => a.id == aid) = true := by
        rw [List.any_append]
        simp
      rw [upsertAttachment, if_pos (show attachmentExists
        { db with attachments := db.attachments ++ [(⟨aid, nid, fn, mt, dat, ca⟩ : AttachmentRow)] }
        aid = true from hexNew)]
      have h2 : db.attachments.map (attachmentRowUpdate aid fn mt dat) = db.attachments :=
        map_fix_of_all_fix (fun x hx =>
          attachmentRowUpdate_keeps aid fn mt dat x (all_neg_of_any_false hex2 x hx))
      have h3 : attachmentRowUpdate aid fn mt dat ⟨aid, nid, fn, mt, dat, ca⟩ =
          ⟨aid, nid, fn, mt, dat, ca⟩ := by
        simp only [attachmentRowUpdate]
        rw [if_pos (by simp)]
      rw [show ({ db with attachments := db.attachments ++ [⟨aid, nid, fn, mt, dat, ca⟩] } : DB).attachments =
        db.attachments ++ [⟨aid, nid, fn, mt, dat, ca⟩] from rfl]
      rw [List.map_append, h2, List.map_singleton, h3]
    · rw [upsertAttachment, if_neg hex, if_neg hnote] at h
      exact absurd h (by simp)

theorem applyState_of_error {db : DB} {c : Change} {e : String}
    (h : applyChange db c = Except.error e) : applyState db c = db := by
  simp [applyState, h]

theorem applyState_of_ok {db db2 : DB} {c : Change}
    (h : applyChange db c = Except.ok db2) : applyState db c = db2 := by
  simp [applyState, h]

theorem applyChange_att_upsert_eq (db : DB) (c : Change) (aid nid2 : UUID)
    (q : AttachmentPayload) (dat : List Nat) (ha : c.entity = EntityAttachment)
    (hdel : isDeleteChange c = false) (hid : uuidParse c.entityID = some aid)
    (hq : decodeAttachmentPayload c.payload = Except.ok q)
    (hq2 : uuidParse q.noteId = some nid2) (hb : b64Decode q.data = some dat) :
    applyChange db c = upsertAttachment db aid nid2 q.filename q.mimeType dat q.createdAt := by
  simp [applyChange, ha, EntityNote, EntityAttachment, applyAttachmentChange,
    hid, hdel, hq, hq2, hb]

/-- A state produced by a successful apply is a fixpoint of the same
change: re-applying either succeeds with the identical state (upserts) or
fails as an absent-entity delete, leaving the state untouched. -/
theorem applyChange_fix (db db2 : DB) (c : Change)
    (h : applyChange db c = Except.ok db2) : applyState db2 c = db2 := by
  by_cases hn : c.entity = EntityNote
  · have happ : applyChange db c = applyNoteChange db c := by simp [applyChange, hn]
    rw [happ] at h
    cases hid : uuidParse c.entityID with
    | none =>
      simp only [applyNoteChange, hid] at h
      exact absurd h (by simp)
    | some nid =>
      simp only [applyNoteChange, hid] at h
      by_cases hdel : isDeleteChange c = true
      · rw [if_pos hdel] at h
        by_cases hex : noteExists db nid = true
        · rw [deleteNoteDB, if_pos hex] at h
          obtain rfl := Except.ok.inj h
          have hex2 : (db.notes.filter (fun r => !(r.id == nid))).any
              (fun r => r.id == nid) = false := any_filter_not _ _
          exact @applyState_of_error _ _ "note not found" (by
            simp [applyChange, hn, applyNoteChange, hid, hdel, deleteNoteDB,
              noteExists, hex2])
        · rw [deleteNoteDB, if_neg hex] at h
          exact absurd h (by simp)
      · have hdel2 : isDeleteChange c = false := Bool.eq_false_iff.mpr hdel
        rw [if_neg hdel] at h
        cases hp : decodeNotePayload c.payload with
        | error e => rw [hp] at h; simp at h
        | ok p =>
          rw [hp] at h
          obtain rfl := Except.ok.inj h
          show applyState (noteApplyCore db nid p) c = noteApplyCore db nid p
          rw [applyState_of_ok
            (applyChange_note_upsert_eq (noteApplyCore db nid p) c nid p hn hdel2 hid hp)]
          exact noteApplyCore_idem db nid p
  · by_cases ha : c.entity = EntityAttachment
    · have happ : applyChange db c = applyAttachmentChange db c := by
        simp [applyChange, hn, ha, EntityNote, EntityAttachment]
      rw [happ] at h
      cases hid : uuidParse c.entityID with
      | none =>
        simp only [applyAttachmentChange, hid] at h
        exact absurd h (by simp)
      | some aid =>
        simp only [applyAttachmentChange, hid] at h
        by_cases hdel : isDeleteChange c = true
        · rw [if_pos hdel] at h
          by_cases hex : attachmentExists db aid = true
          · rw [deleteAttachmentDB, if_pos hex] at h
            obtain rfl := Except.ok.inj h
            have hex2 : (db.attachments.filter (fun a => !(a.id == aid))).any
                (fun a => a.id == aid) = false := any_filter_not _ _
            exact @applyState_of_error _ _ "attachment not found" (by
              simp [applyChange, hn, ha, EntityNote, EntityAttachment,
                applyAttachmentChange, hid, hdel, deleteAttachmentDB,
                attachmentExists, hex2])
          · rw [deleteAttachmentDB, if_neg hex] at h
            exact absurd h (by simp)
        · have hdel2 : isDeleteChange c = false := Bool.eq_false_iff.mpr hdel
          rw [if_neg hdel] at h
          cases hq : decodeAttachmentPayload c.payload with
          | error e => rw [hq] at h; simp at h
          | ok q =>
            simp only [hq] at h
            cases hq2 : uuidParse q.noteId with
            | none => simp only [hq2] at h; exact absurd h (by simp)
            | some nid2 =>
              simp only [hq2] at h
              cases hb : b64Decode q.data with
              | none => simp only [hb] at h; exact absurd h (by simp)
              | some dat =>
                simp only [hb] at h
                exact applyState_of_ok
                  ((applyChange_att_upsert_eq db2 c aid nid2 q dat ha hdel2 hid hq hq2 hb).trans
                    (upsertAttachment_idem db db2 aid nid2 q.filename q.mimeType dat
                      q.createdAt h))
    · have happ : applyChange db c = Except.ok db := by simp [applyChange, hn, ha]
      rw [happ] at h
      obtain rfl := Except.ok.inj h
      exact applyState_of_ok happ

/-- Applying any change twice reaches the same state as applying it once. -/
theorem applyState_applyState (db : DB) (c : Change) :
    applyState (applyState db c) c = applyState db c := by
  cases hres : applyChange db c with
  | error e =>
    have h1 := applyState_of_error hres
    rw [h1]
    exact h1
  | ok db2 =>
    have h1 := applyState_of_ok hres
    rw [h1]
    exact applyChange_fix db db2 c hres

/-! ## Claim C3 -/

/-- A well-formed upsert change: upsert operation, tombstone flag clear,
a routed entity kind, a parseable entity id, and a payload the applier
decodes in full. -/
def wellFormedUpsert (c : Change) : Bool :=
  (c.op == Op.upsert) && !c.deleted &&
  ((c.entity == EntityNote && (uuidParse c.entityID).isSome &&
      exceptOk (decodeNotePayload c.payload)) ||
   (c.entity == EntityAttachment && (uuidParse c.entityID).isSome &&
      !attachmentDecodeRejects c.payload))

/-- C3: applying a well-formed upsert change twice in succession yields
the same final state as applying it once, for both note and attachment
entity kinds. -/
theorem apply_upsert_idempotent (db : DB) (c : Change)
    (_h : wellFormedUpsert c = true) :
    applyState (applyState db c) c = applyState db c :=
  applyState_applyState db c

/-- A well-formed note upsert used by the C3 witness. -/
def cUpsertWitness : Change :=
  ⟨EntityNote, zeroUuidStr, Op.upsert, false,
    PayloadBytes.json (Json.obj
      [("title", Json.str "T"), ("content", Json.str "C"),
       ("tags", Json.arr [Json.str "a", Json.str "b"]),
       ("created_at", Json.num 1), ("updated_at", Json.num 2)])⟩

/-- Witness for C3 at a concrete well-formed note upsert. -/
theorem apply_upsert_idempotent_witness :
    wellFormedUpsert cUpsertWitness = true ∧
    applyState (applyState emptyDB cUpsertWitness) cUpsertWitness =
      applyState emptyDB cUpsertWitness :=
  ⟨by decide, apply_upsert_idempotent emptyDB cUpsertWitness (by decide)⟩

/-! ## Claim C5 -/

/-- The tag names associated with a note, read through the note_tags join
table: true when some association row of the note points at a tags row
carrying the name. -/
def noteHasTagName (db : DB) (nid : UUID) (nm : String) : Bool :=
  db.noteTags.any (fun q => q.1 == nid &&
    db.tags.any (fun t => t.id == q.2 && t.name == nm))

/-- A note upsert whose payload carries the mixed-case tag "A". -/
def cTagUpper : Change :=
  ⟨EntityNote, zeroUuidStr, Op.upsert, false,
    PayloadBytes.json (Json.obj
      [("title", Json.str "t"), ("content", Json.str "c"),
       ("tags", Json.arr [Json.str "A"]),
       ("created_at", Json.num 0), ("updated_at", Json.num 0)])⟩

/-- C5 counterexample: the tag associations after a note upsert are not
exactly the payload tag list — AddTagToNote normalizes names through
models.NewTag (lowercasing and trimming), so the payload tag "A" is
stored as "a": no association named "A" exists. -/
theorem note_tags_literal_replacement_cex :
    decodeNotePayload cTagUpper.payload = Except.ok ⟨"t", "c", ["A"], 0, 0⟩ ∧
    noteHasTagName (applyState emptyDB cTagUpper) uuidZero "A" = false ∧
    noteHasTagName (applyState emptyDB cTagUpper) uuidZero "a" = true :=
  ⟨rfl, by decide, by decide⟩

/-- Well-formedness of the tag tables, maintained by SQLite: tag ids are
unique (INTEGER PRIMARY KEY) and below the autoincrement counter. -/
def tagsWF (db : DB) : Prop :=
  (db.tags.map TagRow.id).Nodup ∧ ∀ t ∈ db.tags, t.id < db.nextTagId

/-- The TagT-level counterpart of tagsWF. -/
def tagTWF (st : TagT) : Prop :=
  (st.table.map TagRow.id).Nodup ∧ ∀ t ∈ st.table, t.id < st.next

theorem getOrCreateTag_WF (st : TagT) (name : String) (h : tagTWF st) :
    tagTWF (getOrCreateTag st name).2 := by
  cases hf : st.table.find? (fun t => t.name == normTag name) with
  | some t => simpa [getOrCreateTag, hf] using h
  | none =>
    obtain ⟨h1, h2⟩ := h
    refine ⟨?_, ?_⟩
    · simp only [getOrCreateTag, hf]
      rw [List.map_append, List.nodup_append]
      refine ⟨h1, by simp, ?_⟩
      intro x hx
      simp only [List.map_singleton, List.mem_singleton]
      obtain ⟨t, htm, rfl⟩ := List.mem_map.mp hx
      exact fun he => absurd (he ▸ h2 t htm) (by simp)
    · simp only [getOrCreateTag, hf]
      intro t ht
      rcases List.mem_append.mp ht with ht | ht
      · exact Nat.lt_succ_of_lt (h2 t ht)
      · simp only [List.mem_singleton] at ht
        subst ht
        exact Nat.lt_succ_self _

theorem addTags_WF (names : List String) :
    ∀ (st : TagT) (pairs : List (UUID × Nat)) (nid : UUID), tagTWF st →
      tagTWF (addTags st pairs nid names).1 := by
  induction names with
  | nil => intro st pairs nid h; simpa [addTags] using h
  | cons n rest ih =>
    intro st pairs nid h
    rw [addTags_cons]
    exact ih _ _ nid (getOrCreateTag_WF st n h)

theorem addTags_pairs_mono (names : List String) (st : TagT)
    (pairs : List (UUID × Nat)) (nid : UUID) {x : UUID × Nat} (hx : x ∈ pairs) :
    x ∈ (addTags st pairs nid names).2 := by
  obtain ⟨ext, hext, _⟩ := addTags_pairs_extends names st pairs nid
  rw [hext]
  exact List.mem_append_left ext hx

theorem addTags_complete (names : List String) :
    ∀ (st : TagT) (pairs : List (UUID × Nat)) (nid : UUID), ∀ nm ∈ names,
      ∃ t : TagRow,
        (addTags st pairs nid names).1.table.find? (fun t2 => t2.name == normTag nm) = some t ∧
        (nid, t.id) ∈ (addTags st pairs nid names).2 := by
  induction names with
  | nil => intro st pairs nid nm hnm; exact absurd hnm (by simp)
  | cons n rest ih =>
    intro st pairs nid nm hnm
    rcases List.mem_cons.mp hnm with rfl | hnm2
    · obtain ⟨t, hfind, hid⟩ := getOrCreateTag_resolves st nm
      obtain ⟨ext, hext⟩ := addTags_table_extends rest (getOrCreateTag st nm).2
        (insertNoteTag pairs nid (getOrCreateTag st nm).1) nid
      refine ⟨t, ?_, ?_⟩
      · rw [addTags_cons, hext]
        exact find?_append_left hfind
      · have hmem : (nid, (getOrCreateTag st nm).1) ∈
            insertNoteTag pairs nid (getOrCreateTag st nm).1 := by
          unfold insertNoteTag
          by_cases hmem2 : (nid, (getOrCreateTag st nm).1) ∈ pairs
          · rw [if_pos hmem2]; exact hmem2
          · rw [if_neg hmem2]; simp
        rw [addTags_cons, hid]
        exact addTags_pairs_mono rest _ _ nid hmem
    · obtain ⟨t, hfind, hpair⟩ := ih (getOrCreateTag st n).2
        (insertNoteTag pairs nid (getOrCreateTag st n).1) nid nm hnm2
      exact ⟨t, by rw [addTags_cons]; exact hfind, by rw [addTags_cons]; exact hpair⟩

theorem addTags_sound (names : List String) :
    ∀ (st : TagT) (pairs : List (UUID × Nat)) (nid : UUID) (x : UUID × Nat),
      x ∈ (addTags st pairs nid names).2 →
      x ∈ pairs ∨ ∃ nm ∈ names, ∃ t : TagRow,
        (addTags st pairs nid names).1.table.find? (fun t2 => t2.name == normTag nm) = some t ∧
        x = (nid, t.id) := by
  induction names with
  | nil => intro st pairs nid x hx; exact Or.inl (by simpa [addTags] using hx)
  | cons n rest ih =>
    intro st pairs nid x hx
    rw [addTags_cons] at hx
    rcases ih (getOrCreateTag st n).2 (insertNoteTag pairs nid (getOrCreateTag st n).1)
        nid x hx with hx2 | ⟨nm, hnm, t, hfind, rfl⟩
    · unfold insertNoteTag at hx2
      by_cases hmem : (nid, (getOrCreateTag st n).1) ∈ pairs
      · rw [if_pos hmem] at hx2
        exact Or.inl hx2
      · rw [if_neg hmem] at hx2
        rcases List.mem_append.mp hx2 with hl | hr
        · exact Or.inl hl
        · have hx3 : x = (nid, (getOrCreateTag st n).1) := by simpa using hr
          right
          obtain ⟨t, hfind, hid⟩ := getOrCreateTag_resolves st n
          obtain ⟨ext, hext⟩ := addTags_table_extends rest (getOrCreateTag st n).2
            (insertNoteTag pairs nid (getOrCreateTag st n).1) nid
          refine ⟨n, by simp, t, ?_, by rw [hx3, hid]⟩
          rw [addTags_cons, hext]
          exact find?_append_left hfind
    · right
      exact ⟨nm, by simp [hnm], t, by rw [addTags_cons]; exact hfind, rfl⟩

/-- C5 amended: applying a note upsert makes the tag associations of the
note exactly the normalized payload tag list (models.NewTag lowercases
and trims each name): every prior association is removed, none is merged
in, and a name is associated exactly when it is the normalization of some
payload tag. -/
theorem apply_note_upsert_replaces_tags (db : DB) (c : Change) (nid : UUID)
    (p : NotePayload) (hwf : tagsWF db) (hn : c.entity = EntityNote)
    (hop : c.op = Op.upsert) (hdelf : c.deleted = false)
    (hid : uuidParse c.entityID = some nid)
    (hp : decodeNotePayload c.payload = Except.ok p) (nm : String) :
    noteHasTagName (applyState db c) nid nm = true ↔ nm ∈ p.tags.map normTag := by
  have hdel : isDeleteChange c = false := by simp [isDeleteChange, hop, hdelf]
  rw [applyState_of_ok (applyChange_note_upsert_eq db c nid p hn hdel hid hp)]
  have hview : noteHasTagName (noteApplyCore db nid p) nid nm =
      (addTags ⟨db.tags, db.nextTagId⟩
        (db.noteTags.filter (fun q => !(q.1 == nid))) nid p.tags).2.any
        (fun q => q.1 == nid &&
          (addTags ⟨db.tags, db.nextTagId⟩
            (db.noteTags.filter (fun q2 => !(q2.1 == nid))) nid p.tags).1.table.any
            (fun t => t.id == q.2 && t.name == nm)) := rfl
  rw [hview]
  have hWFT : tagTWF (addTags ⟨db.tags, db.nextTagId⟩
      (db.noteTags.filter (fun q2 => !(q2.1 == nid))) nid p.tags).1 :=
    addTags_WF p.tags ⟨db.tags, db.nextTagId⟩ _ nid ⟨hwf.1, hwf.2⟩
  constructor
  · intro h
    obtain ⟨x, hxmem, hx⟩ := List.any_eq_true.mp h
    rw [Bool.and_eq_true] at hx
    obtain ⟨hx1, hx2⟩ := hx
    obtain ⟨t2, ht2mem, ht2⟩ := List.any_eq_true.mp hx2
    rw [Bool.and_eq_true] at ht2
    obtain ⟨htid, htname⟩ := ht2
    rcases addTags_sound p.tags ⟨db.tags, db.nextTagId⟩
        (db.noteTags.filter (fun q2 => !(q2.1 == nid))) nid x hxmem with
      hxP | ⟨nm0, hnm0, t, hfind, rfl⟩
    · have hneg := (List.mem_filter.mp hxP).2
      rw [show (x.1 == nid) = true from hx1] at hneg
      exact absurd hneg (by simp)
    · have htmem := find?_mem hfind
      have htn : t.name = normTag nm0 := by simpa using List.find?_some hfind
      have ht2t : t2 = t := by
        refine List.inj_on_of_nodup_map hWFT.1 ht2mem htmem ?_
        have h1 : t2.id = (nid, t.id).2 := by simpa using htid
        simpa using h1
      have hnmval : nm = normTag nm0 := by
        have h2 : t2.name = nm := by simpa using htname
        rw [← h2, ht2t, htn]
      rw [hnmval]
      exact List.mem_map.mpr ⟨nm0, hnm0, rfl⟩
  · intro h
    obtain ⟨nm0, hnm0, rfl⟩ := List.mem_map.mp h
    obtain ⟨t, hfind, hpair⟩ := addTags_complete p.tags ⟨db.tags, db.nextTagId⟩
      (db.noteTags.filter (fun q2 => !(q2.1 == nid))) nid nm0 hnm0
    apply List.any_eq_true.mpr
    refine ⟨(nid, t.id), hpair, ?_⟩
    rw [Bool.and_eq_true]
    refine ⟨by simp, ?_⟩
    apply List.any_eq_true.mpr
    refine ⟨t, find?_mem hfind, ?_⟩
    rw [Bool.and_eq_true]
    exact ⟨by simp, by simpa using List.find?_some hfind⟩

/-- A note upsert carrying the tags "x" and "Y", for the C5 witness. -/
def cTagWitness : Change :=
  ⟨EntityNote, zeroUuidStr, Op.upsert, false,
    PayloadBytes.json (Json.obj
      [("title", Json.str "t"), ("content", Json.str "c"),
       ("tags", Json.arr [Json.str "x", Json.str "Y"]),
       ("created_at", Json.num 0), ("updated_at", Json.num 0)])⟩

/-- Witness for the amended C5: after the upsert, the note carries the
normalized name "y" of the payload tag "Y". -/
theorem apply_note_upsert_replaces_tags_witness :
    noteHasTagName (applyState emptyDB cTagWitness) uuidZero "y" = true :=
  (apply_note_upsert_replaces_tags emptyDB cTagWitness uuidZero
    ⟨"t", "c", ["x", "Y"], 0, 0⟩ (by refine ⟨?_, ?_⟩ <;> simp [emptyDB]) rfl rfl rfl
    (by decide) rfl "y").mpr (by decide)

/-! ## Claim C4 -/

/-- A third UUID, used by the C4 counterexample. -/
def uuidTwo : UUID := ⟨[0, 0, 0, 0, 0, 0, 0, 0, 0, 0, 0, 0, 0, 0, 0, 2]⟩

/-- A fully configured SyncConfig (server, user, token, well-formed
derived key) with auto-sync enabled. -/
def cfgAutoSync : SyncConfig :=
  ⟨"srv", "user", "tok",
    "0000000000000000000000000000000000000000000000000000000000000000",
    "dev", "v.db", true⟩

/-- A transport stub whose sync attempts always fail; per spec section 7
a failing sync acknowledges nothing, leaving the queue as it found it. -/
def failingVaultSync : VaultSyncRun :=
  fun ob => (ob, Except.error "connection refused")

/-- C4 counterexample: with auto-sync enabled and sync configured, a
failing sync attempt is returned as queueChange's own error right after
the first attachment delete is enqueued, and TryQueueNoteDelete aborts:
the second attachment delete and the note delete itself are never
enqueued.  The queue after the call holds one attachment delete and no
note delete at all, so it does not contain one delete per attachment
ordered before the parent note delete as the claim states. -/
theorem tryQueueNoteDelete_autosync_abort_cex :
    (TryQueueNoteDelete cfgAutoSync failingVaultSync [] uuidZero
      [uuidOne, uuidTwo]).1 = [attachmentDeleteEntry uuidOne] ∧
    ¬ noteDeleteEntry uuidZero ∈
      (TryQueueNoteDelete cfgAutoSync failingVaultSync [] uuidZero
        [uuidOne, uuidTwo]).1 ∧
    ¬ attachmentDeleteEntry uuidTwo ∈
      (TryQueueNoteDelete cfgAutoSync failingVaultSync [] uuidZero
        [uuidOne, uuidTwo]).1 ∧
    (TryQueueNoteDelete cfgAutoSync failingVaultSync [] uuidZero
      [uuidOne, uuidTwo]).2 = Except.error "connection refused" :=
  ⟨rfl, by decide, by decide, rfl⟩

/-- C4 amended: TryQueueNoteDelete enqueues the attachment deletes in
order and only then the note delete, aborting on the first queueChange
error; so whenever sync is configured (non-empty, well-formed derived
key) and no auto-sync attempt intervenes (auto-sync disabled or the sync
precondition unmet), it appends one delete change per dependent
attachment, in order, followed by the note delete itself, and succeeds:
every attachment delete sits strictly before the parent note delete in
the queue. -/
theorem tryQueueNoteDelete_orders_attachment_deletes (cfg : SyncConfig)
    (vaultSync : VaultSyncRun) (ob : Outbox) (noteID : UUID)
    (attachmentIDs : List UUID)
    (hkey : cfg.derivedKey ≠ "") (hseed : validSeedPhrase cfg.derivedKey = true)
    (hauto : (cfg.autoSync && canSync cfg) = false) (_hne : attachmentIDs ≠ []) :
    (TryQueueNoteDelete cfg vaultSync ob noteID attachmentIDs).1 =
      ob ++ attachmentIDs.map attachmentDeleteEntry ++ [noteDeleteEntry noteID] ∧
    (TryQueueNoteDelete cfg vaultSync ob noteID attachmentIDs).2 = Except.ok () ∧
    ∀ a ∈ attachmentIDs, ∃ i j, i < j ∧
      (TryQueueNoteDelete cfg vaultSync ob noteID attachmentIDs).1.get? i =
        some (attachmentDeleteEntry a) ∧
      (TryQueueNoteDelete cfg vaultSync ob noteID attachmentIDs).1.get? j =
        some (noteDeleteEntry noteID) := by
  have hqc : ∀ (ob2 : Outbox) (e : OutboxEntry),
      queueChange cfg vaultSync ob2 e = (ob2 ++ [e], Except.ok ()) := by
    intro ob2 e
    simp [queueChange, enqueueEntry, hauto]
  have hloop : ∀ (l : List UUID) (ob2 : Outbox),
      queueAttachmentDeletes cfg vaultSync ob2 l =
        (ob2 ++ l.map attachmentDeleteEntry, Except.ok ()) := by
    intro l
    induction l with
    | nil => intro ob2; simp [queueAttachmentDeletes]
    | cons a rest ih =>
      intro ob2
      rw [queueAttachmentDeletes, hqc]
      show queueAttachmentDeletes cfg vaultSync (ob2 ++ [attachmentDeleteEntry a]) rest = _
      rw [ih (ob2 ++ [attachmentDeleteEntry a])]
      simp
  have hmain : TryQueueNoteDelete cfg vaultSync ob noteID attachmentIDs =
      (ob ++ attachmentIDs.map attachmentDeleteEntry ++ [noteDeleteEntry noteID],
        Except.ok ()) := by
    rw [TryQueueNoteDelete, if_neg (by simp [hkey]), if_neg (by simp [hseed]),
      hloop attachmentIDs ob]
    show queueChange cfg vaultSync (ob ++ attachmentIDs.map attachmentDeleteEntry)
      (noteDeleteEntry noteID) = _
    rw [hqc]
  refine ⟨by rw [hmain], by rw [hmain], ?_⟩
  intro a ha
  obtain ⟨idx, hidx⟩ :=
    List.mem_iff_get?.mp (List.mem_map_of_mem attachmentDeleteEntry ha)
  obtain ⟨hidxlt, _⟩ := List.get?_eq_some.mp hidx
  have hq1 : (TryQueueNoteDelete cfg vaultSync ob noteID attachmentIDs).1 =
      ob ++ attachmentIDs.map attachmentDeleteEntry ++ [noteDeleteEntry noteID] := by
    rw [hmain]
  refine ⟨ob.length + idx, (ob ++ attachmentIDs.map attachmentDeleteEntry).length,
    ?_, ?_, ?_⟩
  · rw [List.length_append]
    exact Nat.add_lt_add_left hidxlt _
  · rw [hq1, List.get?_append
      (by rw [List.length_append]; exact Nat.add_lt_add_left hidxlt _),
      List.get?_append_right (Nat.le_add_right _ _), Nat.add_sub_cancel_left]
    exact hidx
  · rw [hq1]
    exact List.get?_concat_length _ _

/-- A configured SyncConfig with a well-formed derived key and auto-sync
disabled, for the C4 witness. -/
def cfgWitness : SyncConfig :=
  ⟨"srv", "user", "tok",
    "0000000000000000000000000000000000000000000000000000000000000000",
    "dev", "v.db", false⟩

/-- Witness for the amended C4: one attachment delete is queued before
the note delete and the helper succeeds. -/
theorem tryQueueNoteDelete_orders_attachment_deletes_witness :
    (TryQueueNoteDelete cfgWitness (fun ob => (ob, Except.ok ())) [] uuidZero
      [uuidOne]).1 =
      [] ++ [uuidOne].map attachmentDeleteEntry ++ [noteDeleteEntry uuidZero] :=
  (tryQueueNoteDelete_orders_attachment_deletes cfgWitness
    (fun ob => (ob, Except.ok ())) [] uuidZero [uuidOne]
    (by decide) (by decide) (by decide) (by decide)).1

end Memo
